import Mathlib

/-!
Shallow embedding of `src/main.py` of ShadowStrikeHQ/fuzzhash-simhashdedup.

`calculate_hashes` reads a file and produces a fuzzy (ssdeep) digest and a
strong (xxhash) digest, returning `(none, none)` on any read or hashing
failure.  `find_similar_files` walks the files of a directory, builds a digest
table for the files that pass the minimum-size filter and hash successfully,
and then greedily clusters the table entries by ssdeep similarity, yielding
`(representative, cluster)` pairs where `cluster` is the list that starts with
the representative itself followed by the members pulled in.

File-system and library effects are modelled by explicit function parameters:
`getsize` for `os.path.getsize` (an `Except.error` models a raised `OSError`),
`readFile` for `open(filepath, "rb").read()`, `ssdeepHash` and `xxh64Hash` for
the two hash primitives (an `Except.error` models a raised exception), and
`cmp` for `ssdeep.compare` (`none` models a raised comparison error).
-/

/-- File identifiers (Python `str` paths). -/
abbrev FPath := String

/-- Opaque fuzzy digests (ssdeep hash strings). -/
abbrev Digest := String

/-- File contents (Python `bytes`). -/
abbrev Content := List Nat

/-- The digest table `file_hashes`: path mapped to (ssdeep hash, xxhash hash),
in insertion order, mirroring a Python `dict`. -/
abbrev DigestTable := List (FPath × Digest × String)

/-- The exception classes distinguished by `calculate_hashes`. -/
inductive FileErr where
  | notFound
  | permissionDenied
  | otherErr
deriving DecidableEq

/-- Embedding of `calculate_hashes` (src/main.py lines 27-54): read the file,
compute the ssdeep and xxhash digests, and return `(none, none)` on a read
failure (`FileNotFoundError`, `PermissionError`, any other exception) or on a
hashing failure. -/
def calculate_hashes (readFile : FPath → Except FileErr Content)
    (ssdeepHash : Content → Except String Digest)
    (xxh64Hash : Content → Except String String)
    (filepath : FPath) : Option Digest × Option String :=
  match readFile filepath with
  | Except.error _ => (none, none)
  | Except.ok file_content =>
    match ssdeepHash file_content with
    | Except.error _ => (none, none)
    | Except.ok ssdeep_hash =>
      match xxh64Hash file_content with
      | Except.error _ => (none, none)
      | Except.ok xxhash_hash => (some ssdeep_hash, some xxhash_hash)

/-- Python `dict` insertion on an insertion-ordered association list:
`file_hashes[filepath] = v` replaces in place when the key exists, otherwise
appends at the end. -/
def dictInsert (k : FPath) (v : Digest × String) : DigestTable → DigestTable
  | [] => [(k, v)]
  | (k', v') :: rest => if k' = k then (k, v) :: rest else (k', v') :: dictInsert k v rest

/-- The table-building phase of `find_similar_files` (src/main.py lines
77-93): walk the files, skip those below `minSize`, insert those whose
`calculate_hashes` result is truthy (`if ssdeep_hash and xxhash_hash`), and
abort with `none` when `os.path.getsize` raises (the surrounding
`except OSError` / `except Exception` ends the generator, discarding the
accumulated table). -/
def buildTableAux (getsize : FPath → Except String Nat)
    (readFile : FPath → Except FileErr Content)
    (ssdeepHash : Content → Except String Digest)
    (xxh64Hash : Content → Except String String)
    (minSize : Nat) :
    List FPath → DigestTable → Option DigestTable
  | [], file_hashes => some file_hashes
  | filepath :: rest, file_hashes =>
    match getsize filepath with
    | Except.error _ => none
    | Except.ok sz =>
      if sz < minSize then
        buildTableAux getsize readFile ssdeepHash xxh64Hash minSize rest file_hashes
      else
        match calculate_hashes readFile ssdeepHash xxh64Hash filepath with
        | (some h1, some h2) =>
          if h1 ≠ "" ∧ h2 ≠ "" then
            buildTableAux getsize readFile ssdeepHash xxh64Hash minSize rest
              (dictInsert filepath (h1, h2) file_hashes)
          else
            buildTableAux getsize readFile ssdeepHash xxh64Hash minSize rest file_hashes
        | _ => buildTableAux getsize readFile ssdeepHash xxh64Hash minSize rest file_hashes

/-- The digest table built by `find_similar_files` from an empty `file_hashes`. -/
def buildTable (getsize : FPath → Except String Nat)
    (readFile : FPath → Except FileErr Content)
    (ssdeepHash : Content → Except String Digest)
    (xxh64Hash : Content → Except String String)
    (files : List FPath) (minSize : Nat) : Option DigestTable :=
  buildTableAux getsize readFile ssdeepHash xxh64Hash minSize files []

/-- The inner loop of the clustering pass (src/main.py lines 101-111): scan
all table entries `(filepath2, (ssdeep_hash2, _))`; for those distinct from
the representative and not yet in the `clusters` registry, compare digests;
a comparison failure (`none`) is caught and skipped; on `similarity >=
threshold` the entry is appended to the member list and marked in the
registry.  Returns the member list and the updated registry. -/
def innerLoop (cmp : Digest → Digest → Option Nat) (threshold : Nat)
    (filepath1 : FPath) (ssdeep_hash1 : Digest) :
    DigestTable → List FPath → List FPath × List FPath
  | [], clusters => ([], clusters)
  | (filepath2, ssdeep_hash2, _) :: rest, clusters =>
    if filepath1 ≠ filepath2 ∧ filepath2 ∉ clusters then
      match cmp ssdeep_hash1 ssdeep_hash2 with
      | some similarity =>
        if threshold ≤ similarity then
          let r := innerLoop cmp threshold filepath1 ssdeep_hash1 rest (clusters ++ [filepath2])
          (filepath2 :: r.1, r.2)
        else innerLoop cmp threshold filepath1 ssdeep_hash1 rest clusters
      | none => innerLoop cmp threshold filepath1 ssdeep_hash1 rest clusters
    else innerLoop cmp threshold filepath1 ssdeep_hash1 rest clusters

/-- The outer loop of the clustering pass (src/main.py lines 96-113): walk the
table entries in insertion order; skip entries already claimed by the
`clusters` registry; run the inner loop over the whole table; yield
`(filepath1, cluster)` when `len(cluster) > 1`, where
`cluster = filepath1 :: members`. -/
def clusterLoop (cmp : Digest → Digest → Option Nat) (threshold : Nat)
    (table : DigestTable) :
    DigestTable → List FPath → List (FPath × List FPath)
  | [], _ => []
  | (filepath1, ssdeep_hash1, _) :: rest, clusters =>
    if filepath1 ∈ clusters then clusterLoop cmp threshold table rest clusters
    else
      let r := innerLoop cmp threshold filepath1 ssdeep_hash1 table clusters
      if r.1 = [] then clusterLoop cmp threshold table rest r.2
      else (filepath1, filepath1 :: r.1) :: clusterLoop cmp threshold table rest r.2

/-- The clustering pass of `find_similar_files` on a completed digest table:
the sequence of `(representative, cluster)` pairs yielded in order. -/
def findSimilarClusters (cmp : Digest → Digest → Option Nat) (threshold : Nat)
    (table : DigestTable) : List (FPath × List FPath) :=
  clusterLoop cmp threshold table table []

/-- Embedding of `find_similar_files` (src/main.py lines 57-113): empty
output when the directory is invalid, when the walk aborts with an `OSError`,
or when no cluster is found; otherwise the clustering pass over the built
table. -/
def find_similar_files (isdir : Bool)
    (getsize : FPath → Except String Nat)
    (readFile : FPath → Except FileErr Content)
    (ssdeepHash : Content → Except String Digest)
    (xxh64Hash : Content → Except String String)
    (cmp : Digest → Digest → Option Nat)
    (files : List FPath) (threshold : Nat) (minSize : Nat) : List (FPath × List FPath) :=
  if isdir = false then []
  else
    match buildTable getsize readFile ssdeepHash xxh64Hash files minSize with
    | none => []
    | some file_hashes => findSimilarClusters cmp threshold file_hashes

/-- Boolean decision the inner loop effectively takes for one ordered pair of
digests: `true` exactly when the comparison succeeds with a score meeting the
threshold; a failed comparison decides `false`. -/
def simDecision (cmp : Digest → Digest → Option Nat) (threshold : Nat)
    (a b : Digest) : Bool :=
  match cmp a b with
  | some s => decide (threshold ≤ s)
  | none => false

/-- No successful comparison of the two digests meets the threshold. -/
def noHit (cmp : Digest → Digest → Option Nat) (threshold : Nat)
    (a b : Digest) : Prop :=
  ∀ s, cmp a b = some s → s < threshold

/-- Two paths land in one emitted cluster list. -/
abbrev sameCluster (out : List (FPath × List FPath)) (p q : FPath) : Prop :=
  ∃ pr ∈ out, p ∈ pr.2 ∧ q ∈ pr.2

/-- Comparison that always reports full similarity (used for concrete runs). -/
def cmp100 : Digest → Digest → Option Nat := fun _ _ => some 100

/-- A two-entry digest table for concrete runs. -/
def tblAB : DigestTable := [("a", "x", "sx"), ("b", "y", "sy")]

/-- Symmetric comparison realizing similarity 50 between `hB`,`hA`, 10 between
`hB`,`hC` and 90 between `hA`,`hC`. -/
def cmpBAC : Digest → Digest → Option Nat := fun a b =>
  if a = b then some 100
  else if (a = "hB" ∧ b = "hA") ∨ (a = "hA" ∧ b = "hB") then some 50
  else if (a = "hB" ∧ b = "hC") ∨ (a = "hC" ∧ b = "hB") then some 10
  else if (a = "hA" ∧ b = "hC") ∨ (a = "hC" ∧ b = "hA") then some 90
  else some 0

/-- Table whose insertion order is `B`, `A`, `C`. -/
def tblBAC : DigestTable := [("B", "hB", "sB"), ("A", "hA", "sA"), ("C", "hC", "sC")]

/-- Asymmetric comparison: `hx` against `hy` scores 10, `hy` against `hx`
scores 80. -/
def cmpXY : Digest → Digest → Option Nat := fun a b =>
  if a = "hx" ∧ b = "hy" then some 10
  else if a = "hy" ∧ b = "hx" then some 80
  else some 100

/-- Two-entry table with digests `hx`, `hy`. -/
def tblXY : DigestTable := [("x", "hx", "sx"), ("y", "hy", "sy")]

/-- Comparison that fails (raises) on the ordered digest pair `(u, v)` and
reports 100 elsewhere. -/
def cmpFailUV : Digest → Digest → Option Nat := fun a b =>
  if a = "u" ∧ b = "v" then none else some 100

/-- The same comparison with the failing pair patched to score 0. -/
def cmpZeroUV : Digest → Digest → Option Nat := fun a b =>
  if a = "u" ∧ b = "v" then some 0 else cmpFailUV a b

/-- Table with digests `u`, `v`. -/
def tblUV : DigestTable := [("p", "u", "s1"), ("q", "v", "s2")]

/-- `os.path.getsize` that raises an `OSError` for `f1` and reports 2000
bytes elsewhere. -/
def getsizeF1 : FPath → Except String Nat := fun p =>
  if p = "f1" then Except.error "OSError" else Except.ok 2000

/-- `os.path.getsize` that always succeeds with 2000 bytes. -/
def getsizeOk : FPath → Except String Nat := fun _ => Except.ok 2000

/-- `os.path.getsize` reporting 10 bytes for `tiny` and 2000 elsewhere. -/
def getsizeSmall : FPath → Except String Nat := fun p =>
  if p = "tiny" then Except.ok 10 else Except.ok 2000

/-- Reading that always succeeds with a one-byte content. -/
def readOk : FPath → Except FileErr Content := fun _ => Except.ok [1]

/-- Reading that raises `PermissionError` for `g` and succeeds elsewhere. -/
def readFailG : FPath → Except FileErr Content := fun p =>
  if p = "g" then Except.error FileErr.permissionDenied else Except.ok [1]

/-- Hashing that always succeeds with digest `H`. -/
def sdHashOk : Content → Except String Digest := fun _ => Except.ok "H"

/-- Strong hashing that always succeeds with digest `X`. -/
def xxHashOk : Content → Except String String := fun _ => Except.ok "X"

/-- The registry returned by the inner loop is the input registry with the
found members appended. -/
lemma innerLoop_snd (cmp : Digest → Digest → Option Nat) (threshold : Nat)
    (filepath1 : FPath) (hash1 : Digest) :
    ∀ (es : DigestTable) (clusters : List FPath),
      (innerLoop cmp threshold filepath1 hash1 es clusters).2 =
        clusters ++ (innerLoop cmp threshold filepath1 hash1 es clusters).1 := by
  intro es
  induction es with
  | nil => intro clusters; simp [innerLoop]
  | cons e rest ih =>
    intro clusters
    obtain ⟨p2, h2, x2⟩ := e
    by_cases hc : filepath1 ≠ p2 ∧ p2 ∉ clusters
    · rcases hcmp : cmp hash1 h2 with _ | s
      · simp only [innerLoop, if_pos hc, hcmp]
        exact ih clusters
      · by_cases hle : threshold ≤ s
        · simp only [innerLoop, if_pos hc, hcmp, if_pos hle]
          have h := ih (clusters ++ [p2])
          rw [h, List.append_assoc, List.singleton_append]
        · simp only [innerLoop, if_pos hc, hcmp, if_neg hle]
          exact ih clusters
    · simp only [innerLoop, if_neg hc]
      exact ih clusters

/-- The input registry is contained in the registry the inner loop returns. -/
lemma innerLoop_clusters_subset (cmp : Digest → Digest → Option Nat)
    (threshold : Nat) (filepath1 : FPath) (hash1 : Digest)
    (es : DigestTable) (clusters : List FPath) :
    clusters ⊆ (innerLoop cmp threshold filepath1 hash1 es clusters).2 := by
  rw [innerLoop_snd]
  exact List.subset_append_left _ _

/-- Every member found by the inner loop differs from the representative, was
not yet claimed, and stems from a table entry whose comparison against the
representative's digest succeeded with a score meeting the threshold. -/
lemma innerLoop_mem (cmp : Digest → Digest → Option Nat) (threshold : Nat)
    (filepath1 : FPath) (hash1 : Digest) :
    ∀ (es : DigestTable) (clusters : List FPath) (m : FPath),
      m ∈ (innerLoop cmp threshold filepath1 hash1 es clusters).1 →
      m ≠ filepath1 ∧ m ∉ clusters ∧
        ∃ hm xm, (m, hm, xm) ∈ es ∧ ∃ s, cmp hash1 hm = some s ∧ threshold ≤ s := by
  intro es
  induction es with
  | nil => intro clusters m hm; simp [innerLoop] at hm
  | cons e rest ih =>
    intro clusters m hmem
    obtain ⟨p2, h2, x2⟩ := e
    by_cases hc : filepath1 ≠ p2 ∧ p2 ∉ clusters
    · rcases hcmp : cmp hash1 h2 with _ | s
      · simp only [innerLoop, if_pos hc, hcmp] at hmem
        obtain ⟨hne, hncl, hm', xm', hin, hs⟩ := ih clusters m hmem
        exact ⟨hne, hncl, hm', xm', List.mem_cons_of_mem _ hin, hs⟩
      · by_cases hle : threshold ≤ s
        · simp only [innerLoop, if_pos hc, hcmp, if_pos hle] at hmem
          rcases List.mem_cons.mp hmem with rfl | hmem'
          · exact ⟨fun h => hc.1 h.symm, hc.2, h2, x2, List.mem_cons_self _ _,
              s, hcmp, hle⟩
          · obtain ⟨hne, hncl, hm', xm', hin, hs⟩ := ih (clusters ++ [p2]) m hmem'
            refine ⟨hne, fun hmc => hncl (List.mem_append_left _ hmc), hm', xm',
              List.mem_cons_of_mem _ hin, hs⟩
        · simp only [innerLoop, if_pos hc, hcmp, if_neg hle] at hmem
          obtain ⟨hne, hncl, hm', xm', hin, hs⟩ := ih clusters m hmem
          exact ⟨hne, hncl, hm', xm', List.mem_cons_of_mem _ hin, hs⟩
    · simp only [innerLoop, if_neg hc] at hmem
      obtain ⟨hne, hncl, hm', xm', hin, hs⟩ := ih clusters m hmem
      exact ⟨hne, hncl, hm', xm', List.mem_cons_of_mem _ hin, hs⟩

/-- The member list found by the inner loop is a subsequence of the scanned
entries' paths, so members come out in table insertion order. -/
lemma innerLoop_sublist (cmp : Digest → Digest → Option Nat) (threshold : Nat)
    (filepath1 : FPath) (hash1 : Digest) :
    ∀ (es : DigestTable) (clusters : List FPath),
      (innerLoop cmp threshold filepath1 hash1 es clusters).1.Sublist
        (es.map Prod.fst) := by
  intro es
  induction es with
  | nil => intro clusters; simp [innerLoop]
  | cons e rest ih =>
    intro clusters
    obtain ⟨p2, h2, x2⟩ := e
    by_cases hc : filepath1 ≠ p2 ∧ p2 ∉ clusters
    · rcases hcmp : cmp hash1 h2 with _ | s
      · simp only [innerLoop, if_pos hc, hcmp, List.map_cons]
        exact (ih clusters).cons _
      · by_cases hle : threshold ≤ s
        · simp only [innerLoop, if_pos hc, hcmp, if_pos hle, List.map_cons]
          exact (ih (clusters ++ [p2])).cons₂ _
        · simp only [innerLoop, if_pos hc, hcmp, if_neg hle, List.map_cons]
          exact (ih clusters).cons _
    · simp only [innerLoop, if_neg hc, List.map_cons]
      exact (ih clusters).cons _

/-- The member list found by the inner loop has no duplicates. -/
lemma innerLoop_nodup (cmp : Digest → Digest → Option Nat) (threshold : Nat)
    (filepath1 : FPath) (hash1 : Digest) :
    ∀ (es : DigestTable) (clusters : List FPath),
      (innerLoop cmp threshold filepath1 hash1 es clusters).1.Nodup := by
  intro es
  induction es with
  | nil => intro clusters; simp [innerLoop]
  | cons e rest ih =>
    intro clusters
    obtain ⟨p2, h2, x2⟩ := e
    by_cases hc : filepath1 ≠ p2 ∧ p2 ∉ clusters
    · rcases hcmp : cmp hash1 h2 with _ | s
      · simp only [innerLoop, if_pos hc, hcmp]; exact ih clusters
      · by_cases hle : threshold ≤ s
        · simp only [innerLoop, if_pos hc, hcmp, if_pos hle]
          refine List.nodup_cons.mpr ⟨fun hmem => ?_, ih (clusters ++ [p2])⟩
          obtain ⟨-, hncl, -⟩ :=
            innerLoop_mem cmp threshold filepath1 hash1 rest (clusters ++ [p2]) p2 hmem
          exact hncl (List.mem_append_right _ (List.mem_singleton.mpr rfl))
        · simp only [innerLoop, if_pos hc, hcmp, if_neg hle]; exact ih clusters
    · simp only [innerLoop, if_neg hc]; exact ih clusters

/-- After the inner loop has run, any scanned entry that is still outside the
returned registry and differs from the representative compares below the
threshold (or its comparison failed) against the representative's digest. -/
lemma innerLoop_blocked (cmp : Digest → Digest → Option Nat) (threshold : Nat)
    (filepath1 : FPath) (hash1 : Digest) :
    ∀ (es : DigestTable) (clusters : List FPath) (q : FPath) (hq : Digest) (xq : String),
      (q, hq, xq) ∈ es →
      q ∉ (innerLoop cmp threshold filepath1 hash1 es clusters).2 →
      q ≠ filepath1 → noHit cmp threshold hash1 hq := by
  intro es
  induction es with
  | nil => intro clusters q hq xq hin; simp at hin
  | cons e rest ih =>
    intro clusters q hq xq hin hout hne
    obtain ⟨p2, h2, x2⟩ := e
    by_cases hc : filepath1 ≠ p2 ∧ p2 ∉ clusters
    · rcases hcmp : cmp hash1 h2 with _ | s
      · simp only [innerLoop, if_pos hc, hcmp] at hout
        rcases List.mem_cons.mp hin with heq | htail
        · simp only [Prod.mk.injEq] at heq
          obtain ⟨-, rfl, -⟩ := heq
          intro s' hs'
          rw [hcmp] at hs'
          cases hs'
        · exact ih clusters q hq xq htail hout hne
      · by_cases hle : threshold ≤ s
        · simp only [innerLoop, if_pos hc, hcmp, if_pos hle] at hout
          rcases List.mem_cons.mp hin with heq | htail
          · simp only [Prod.mk.injEq] at heq
            obtain ⟨rfl, -, -⟩ := heq
            exact absurd (innerLoop_clusters_subset cmp threshold filepath1 hash1 rest
              (clusters ++ [q]) (List.mem_append_right _ (List.mem_singleton.mpr rfl))) hout
          · exact ih (clusters ++ [p2]) q hq xq htail hout hne
        · simp only [innerLoop, if_pos hc, hcmp, if_neg hle] at hout
          rcases List.mem_cons.mp hin with heq | htail
          · simp only [Prod.mk.injEq] at heq
            obtain ⟨-, rfl, -⟩ := heq
            intro s' hs'
            rw [hcmp] at hs'
            cases hs'
            exact Nat.lt_of_not_le hle
          · exact ih clusters q hq xq htail hout hne
    · simp only [innerLoop, if_neg hc] at hout
      rcases List.mem_cons.mp hin with heq | htail
      · simp only [Prod.mk.injEq] at heq
        obtain ⟨rfl, -, -⟩ := heq
        rcases not_and_or.mp hc with hc1 | hc2
        · exact absurd (not_not.mp hc1).symm hne
        · exact absurd (innerLoop_clusters_subset cmp threshold filepath1 hash1 rest
            clusters (not_not.mp hc2)) hout
      · exact ih clusters q hq xq htail hout hne

/-- If the scanned entries have distinct paths and `(p, hp, _)` is among them
with `p` unclaimed, then a representative `q ≠ p` whose digest compares
against `hp` at or above the threshold pulls `p` into its member list. -/
lemma innerLoop_adds (cmp : Digest → Digest → Option Nat) (threshold : Nat)
    (q : FPath) (hq : Digest) (p : FPath) (hp : Digest) (xp : String) (s : Nat) :
    ∀ (es : DigestTable) (clusters : List FPath),
      (es.map Prod.fst).Nodup → (p, hp, xp) ∈ es → p ∉ clusters → q ≠ p →
      cmp hq hp = some s → threshold ≤ s →
      p ∈ (innerLoop cmp threshold q hq es clusters).1 := by
  intro es
  induction es with
  | nil => intro clusters _ hin; simp at hin
  | cons e rest ih =>
    intro clusters hnd hin hncl hne hcmps hle
    obtain ⟨p2, h2, x2⟩ := e
    rw [List.map_cons, List.nodup_cons] at hnd
    by_cases hp2 : p2 = p
    · subst hp2
      have hhd : (p2, hp, xp) = ((p2, h2, x2) : FPath × Digest × String) := by
        rcases List.mem_cons.mp hin with heq | htail
        · exact heq
        · exact absurd (List.mem_map_of_mem Prod.fst htail) hnd.1
      simp only [Prod.mk.injEq] at hhd
      obtain ⟨-, rfl, -⟩ := hhd
      have hc : q ≠ p2 ∧ p2 ∉ clusters := ⟨hne, hncl⟩
      simp only [innerLoop, if_pos hc, hcmps, if_pos hle]
      exact List.mem_cons_self _ _
    · have htail : (p, hp, xp) ∈ rest := by
        rcases List.mem_cons.mp hin with heq | htail
        · simp only [Prod.mk.injEq] at heq
          exact absurd heq.1.symm hp2
        · exact htail
      by_cases hc : q ≠ p2 ∧ p2 ∉ clusters
      · rcases hcmp2 : cmp hq h2 with _ | s2
        · simp only [innerLoop, if_pos hc, hcmp2]
          exact ih clusters hnd.2 htail hncl hne hcmps hle
        · by_cases hle2 : threshold ≤ s2
          · simp only [innerLoop, if_pos hc, hcmp2, if_pos hle2]
            refine List.mem_cons_of_mem _ (ih (clusters ++ [p2]) hnd.2 htail ?_ hne hcmps hle)
            intro hmem
            rcases List.mem_append.mp hmem with h | h
            · exact hncl h
            · exact hp2 (List.mem_singleton.mp h).symm
          · simp only [innerLoop, if_pos hc, hcmp2, if_neg hle2]
            exact ih clusters hnd.2 htail hncl hne hcmps hle
      · simp only [innerLoop, if_neg hc]
        exact ih clusters hnd.2 htail hncl hne hcmps hle

/-- A table with distinct paths associates a unique value to each path. -/
lemma table_val_eq :
    ∀ (l : DigestTable), (l.map Prod.fst).Nodup →
      ∀ (k : FPath) (v v' : Digest × String), (k, v) ∈ l → (k, v') ∈ l → v = v' := by
  intro l
  induction l with
  | nil => intro _ k v v' hv; simp at hv
  | cons e rest ih =>
    intro hnd k v v' hv hv'
    rw [List.map_cons, List.nodup_cons] at hnd
    rcases List.mem_cons.mp hv with heq | htail
    · rcases List.mem_cons.mp hv' with heq' | htail'
      · rw [← heq] at heq'
        exact (Prod.mk.injEq _ _ _ _ ▸ heq').2.symm
      · have : k ∈ rest.map Prod.fst := by
          have := List.mem_map_of_mem Prod.fst htail'
          simpa using this
        rw [← heq] at hnd
        exact absurd this hnd.1
    · rcases List.mem_cons.mp hv' with heq' | htail'
      · have : k ∈ rest.map Prod.fst := by
          have := List.mem_map_of_mem Prod.fst htail
          simpa using this
        rw [← heq'] at hnd
        exact absurd this hnd.1
      · exact ih hnd.2 k v v' htail htail'

/-- No path already claimed in the registry ever appears in a cluster list
emitted afterwards. -/
lemma clusterLoop_not_claimed (cmp : Digest → Digest → Option Nat)
    (threshold : Nat) (table : DigestTable) :
    ∀ (rest : DigestTable) (clusters : List FPath) (p : FPath),
      p ∈ clusters →
      p ∉ ((clusterLoop cmp threshold table rest clusters).map Prod.snd).flatten := by
  intro rest
  induction rest with
  | nil => intro clusters p _; simp [clusterLoop]
  | cons e rest' ih =>
    intro clusters p hp
    obtain ⟨p1, h1, x1⟩ := e
    by_cases hin : p1 ∈ clusters
    · simp only [clusterLoop, if_pos hin]
      exact ih clusters p hp
    · simp only [clusterLoop, if_neg hin]
      by_cases hr : (innerLoop cmp threshold p1 h1 table clusters).1 = []
      · simp only [if_pos hr]
        exact ih _ p (innerLoop_clusters_subset cmp threshold p1 h1 table clusters hp)
      · simp only [if_neg hr, List.map_cons, List.flatten_cons]
        intro hmem
        rcases List.mem_append.mp hmem with hleft | hright
        · rcases List.mem_cons.mp hleft with rfl | hms
          · exact hin hp
          · obtain ⟨-, hncl, -⟩ :=
              innerLoop_mem cmp threshold p1 h1 table clusters p hms
            exact hncl hp
        · exact ih _ p (innerLoop_clusters_subset cmp threshold p1 h1 table clusters hp) hright

/-- The representatives of the emitted clusters are a subsequence of the
scanned entries' paths: successive representatives respect insertion order. -/
lemma clusterLoop_reps_sublist (cmp : Digest → Digest → Option Nat)
    (threshold : Nat) (table : DigestTable) :
    ∀ (rest : DigestTable) (clusters : List FPath),
      ((clusterLoop cmp threshold table rest clusters).map Prod.fst).Sublist
        (rest.map Prod.fst) := by
  intro rest
  induction rest with
  | nil => intro clusters; simp [clusterLoop]
  | cons e rest' ih =>
    intro clusters
    obtain ⟨p1, h1, x1⟩ := e
    by_cases hin : p1 ∈ clusters
    · simp only [clusterLoop, if_pos hin, List.map_cons]
      exact (ih clusters).cons _
    · simp only [clusterLoop, if_neg hin]
      by_cases hr : (innerLoop cmp threshold p1 h1 table clusters).1 = []
      · simp only [if_pos hr, List.map_cons]
        exact (ih _).cons _
      · simp only [if_neg hr, List.map_cons]
        exact (ih _).cons₂ _

/-- Characterization of an emitted pair: its representative is a scanned
entry, the yielded list is the representative followed by a non-empty,
duplicate-free member list in table order, and every member is a table entry
whose comparison against the representative's digest met the threshold. -/
lemma clusterLoop_emitted (cmp : Digest → Digest → Option Nat)
    (threshold : Nat) (table : DigestTable) :
    ∀ (rest : DigestTable) (clusters : List FPath) (rep : FPath) (c : List FPath),
      (rep, c) ∈ clusterLoop cmp threshold table rest clusters →
      ∃ hr xr ms, (rep, hr, xr) ∈ rest ∧ c = rep :: ms ∧ ms ≠ [] ∧ rep ∉ ms ∧
        ms.Nodup ∧ ms.Sublist (table.map Prod.fst) ∧
        ∀ m ∈ ms, ∃ hm xm, (m, hm, xm) ∈ table ∧
          ∃ s, cmp hr hm = some s ∧ threshold ≤ s := by
  intro rest
  induction rest with
  | nil => intro clusters rep c hmem; simp [clusterLoop] at hmem
  | cons e rest' ih =>
    intro clusters rep c hmem
    obtain ⟨p1, h1, x1⟩ := e
    by_cases hin : p1 ∈ clusters
    · simp only [clusterLoop, if_pos hin] at hmem
      obtain ⟨hr, xr, ms, hrest, hrem⟩ := ih clusters rep c hmem
      exact ⟨hr, xr, ms, List.mem_cons_of_mem _ hrest, hrem⟩
    · simp only [clusterLoop, if_neg hin] at hmem
      by_cases hr1 : (innerLoop cmp threshold p1 h1 table clusters).1 = []
      · simp only [if_pos hr1] at hmem
        obtain ⟨hr, xr, ms, hrest, hrem⟩ := ih _ rep c hmem
        exact ⟨hr, xr, ms, List.mem_cons_of_mem _ hrest, hrem⟩
      · simp only [if_neg hr1] at hmem
        rcases List.mem_cons.mp hmem with heq | htail
        · simp only [Prod.mk.injEq] at heq
          obtain ⟨rfl, rfl⟩ := heq
          refine ⟨h1, x1, (innerLoop cmp threshold rep h1 table clusters).1,
            List.mem_cons_self _ _, rfl, hr1, ?_, innerLoop_nodup cmp threshold rep h1 table clusters,
            innerLoop_sublist cmp threshold rep h1 table clusters, ?_⟩
          · intro hmem'
            obtain ⟨hne, -, -⟩ :=
              innerLoop_mem cmp threshold rep h1 table clusters rep hmem'
            exact hne rfl
          · intro m hm
            obtain ⟨-, -, hmd, xmd, hintab, hs⟩ :=
              innerLoop_mem cmp threshold rep h1 table clusters m hm
            exact ⟨hmd, xmd, hintab, hs⟩
        · obtain ⟨hrd, xr, ms, hrest, hrem⟩ := ih _ rep c htail
          exact ⟨hrd, xr, ms, List.mem_cons_of_mem _ hrest, hrem⟩

/-- Main uniqueness invariant: scanning a suffix `rest` of a duplicate-free
table under a symmetric comparison, with a registry `clusters` and a set
`prot` of protected entries (previously emitted representatives: table
entries outside the registry and outside `rest` whose digest compares below
the threshold against every still-unclaimed other entry), no protected path
reappears in the output and the concatenation of all emitted cluster lists is
duplicate-free. -/
lemma clusterLoop_nodup_aux (cmp : Digest → Digest → Option Nat) (threshold : Nat)
    (table : DigestTable)
    (hsym : ∀ a b, cmp a b = cmp b a)
    (hnd : (table.map Prod.fst).Nodup) :
    ∀ (rest : DigestTable) (clusters : List FPath) (prot : DigestTable),
      rest.Sublist table →
      (∀ ph ∈ prot, ph ∈ table ∧ ph.1 ∉ clusters ∧ ph.1 ∉ rest.map Prod.fst ∧
        (∀ q hq xq, (q, hq, xq) ∈ table → q ∉ clusters → q ≠ ph.1 →
          noHit cmp threshold ph.2.1 hq)) →
      (∀ ph ∈ prot,
        ph.1 ∉ ((clusterLoop cmp threshold table rest clusters).map Prod.snd).flatten) ∧
      (((clusterLoop cmp threshold table rest clusters).map Prod.snd).flatten).Nodup := by
  intro rest
  induction rest with
  | nil => intro clusters prot _ _; simp [clusterLoop]
  | cons e rest' ih =>
    intro clusters prot hsub hprot
    obtain ⟨p1, h1, x1⟩ := e
    have hrest' : rest'.Sublist table := List.sublist_of_cons_sublist hsub
    have hp1tab : (p1, h1, x1) ∈ table := hsub.subset (List.mem_cons_self _ _)
    have hkeys : (p1 :: rest'.map Prod.fst).Nodup := by
      have hm := hsub.map Prod.fst
      rw [List.map_cons] at hm
      exact hnd.sublist hm
    have hp1rest : p1 ∉ rest'.map Prod.fst := (List.nodup_cons.mp hkeys).1
    have hprotrest : ∀ ph ∈ prot, (ph : FPath × Digest × String).1 ∉ rest'.map Prod.fst := by
      intro ph hph
      obtain ⟨-, -, hnk, -⟩ := hprot ph hph
      rw [List.map_cons] at hnk
      exact fun hk => hnk (List.mem_cons_of_mem _ hk)
    have hprotne : ∀ ph ∈ prot, (ph : FPath × Digest × String).1 ≠ p1 := by
      intro ph hph heq
      obtain ⟨-, -, hnk, -⟩ := hprot ph hph
      rw [List.map_cons] at hnk
      exact hnk (heq ▸ List.mem_cons_self _ _)
    by_cases hin : p1 ∈ clusters
    · simp only [clusterLoop, if_pos hin]
      refine ih clusters prot hrest' ?_
      intro ph hph
      obtain ⟨htab, hncl, -, hblock⟩ := hprot ph hph
      exact ⟨htab, hncl, hprotrest ph hph, hblock⟩
    · simp only [clusterLoop, if_neg hin]
      have hc2 := innerLoop_snd cmp threshold p1 h1 table clusters
      have hprotms : ∀ ph ∈ prot,
          (ph : FPath × Digest × String).1 ∉ (innerLoop cmp threshold p1 h1 table clusters).1 := by
        intro ph hph hmem
        obtain ⟨htab, hncl, hnk, hblock⟩ := hprot ph hph
        obtain ⟨-, -, hm', xm', hintab, s, hcmps, hle⟩ :=
          innerLoop_mem cmp threshold p1 h1 table clusters ph.1 hmem
        have hmemtab : (ph.1, ph.2) ∈ table := by
          rw [Prod.mk.eta]; exact htab
        have hval : ((hm', xm') : Digest × String) = ph.2 :=
          table_val_eq table hnd ph.1 (hm', xm') ph.2 hintab hmemtab
        have hblockp1 : noHit cmp threshold ph.2.1 h1 :=
          hblock p1 h1 x1 hp1tab hin (fun h => hprotne ph hph h.symm)
        have hsym1 : cmp ph.2.1 h1 = some s := by
          rw [hsym, ← hval]
          exact hcmps
        exact absurd hle (Nat.not_le_of_lt (hblockp1 s hsym1))
      by_cases hr1 : (innerLoop cmp threshold p1 h1 table clusters).1 = []
      · simp only [if_pos hr1]
        rw [hc2, hr1, List.append_nil]
        refine ih clusters prot hrest' ?_
        intro ph hph
        obtain ⟨htab, hncl, -, hblock⟩ := hprot ph hph
        exact ⟨htab, hncl, hprotrest ph hph, hblock⟩
      · simp only [if_neg hr1]
        rw [hc2]
        have hp1ms : p1 ∉ (innerLoop cmp threshold p1 h1 table clusters).1 := by
          intro hmem
          obtain ⟨hne, -, -⟩ :=
            innerLoop_mem cmp threshold p1 h1 table clusters p1 hmem
          exact hne rfl
        have hinv' : ∀ ph ∈ ((p1, h1, x1) :: prot),
            ph ∈ table ∧
            (ph : FPath × Digest × String).1 ∉
              clusters ++ (innerLoop cmp threshold p1 h1 table clusters).1 ∧
            ph.1 ∉ rest'.map Prod.fst ∧
            (∀ q hq xq, (q, hq, xq) ∈ table →
              q ∉ clusters ++ (innerLoop cmp threshold p1 h1 table clusters).1 →
              q ≠ ph.1 → noHit cmp threshold ph.2.1 hq) := by
          intro ph hph
          rcases List.mem_cons.mp hph with rfl | htl
          · refine ⟨hp1tab, ?_, hp1rest, ?_⟩
            · intro hmem
              rcases List.mem_append.mp hmem with h | h
              · exact hin h
              · exact hp1ms h
            · intro q hq xq hqtab hqout hqne
              refine innerLoop_blocked cmp threshold p1 h1 table clusters q hq xq hqtab ?_ hqne
              rw [hc2]
              exact hqout
          · obtain ⟨htab, hncl, -, hblock⟩ := hprot ph htl
            refine ⟨htab, ?_, hprotrest ph htl, ?_⟩
            · intro hmem
              rcases List.mem_append.mp hmem with h | h
              · exact hncl h
              · exact hprotms ph htl h
            · intro q hq xq hqtab hqout hqne
              exact hblock q hq xq hqtab (fun h => hqout (List.mem_append_left _ h)) hqne
        obtain ⟨ihnot, ihnd⟩ :=
          ih (clusters ++ (innerLoop cmp threshold p1 h1 table clusters).1)
            ((p1, h1, x1) :: prot) hrest' hinv'
        simp only [List.map_cons, List.flatten_cons]
        constructor
        · intro ph hph hmem
          rcases List.mem_append.mp hmem with hleft | hright
          · rcases List.mem_cons.mp hleft with heq | hms
            · exact hprotne ph hph heq
            · exact hprotms ph hph hms
          · exact ihnot ph (List.mem_cons_of_mem _ hph) hright
        · refine List.Nodup.append ?_ ihnd ?_
          · exact List.nodup_cons.mpr
              ⟨hp1ms, innerLoop_nodup cmp threshold p1 h1 table clusters⟩
          · intro a ha hmem'
            rcases List.mem_cons.mp ha with rfl | hams
            · exact ihnot (a, h1, x1) (List.mem_cons_self _ _) hmem'
            · exact clusterLoop_not_claimed cmp threshold table rest'
                (clusters ++ (innerLoop cmp threshold p1 h1 table clusters).1) a
                (List.mem_append_right _ hams) hmem'

/-- A pair found in a `dict` after an insertion is the inserted pair or was
already present. -/
lemma dictInsert_mem :
    ∀ (l : DigestTable) (k : FPath) (v : Digest × String) (p : FPath) (w : Digest × String),
      (p, w) ∈ dictInsert k v l → (p = k ∧ w = v) ∨ (p, w) ∈ l := by
  intro l
  induction l with
  | nil =>
    intro k v p w hmem
    simp only [dictInsert, List.mem_singleton, Prod.mk.injEq] at hmem
    exact Or.inl hmem
  | cons e rest ih =>
    intro k v p w hmem
    obtain ⟨k', v'⟩ := e
    by_cases hk : k' = k
    · simp only [dictInsert, if_pos hk] at hmem
      rcases List.mem_cons.mp hmem with heq | htail
      · simp only [Prod.mk.injEq] at heq
        exact Or.inl heq
      · exact Or.inr (List.mem_cons_of_mem _ htail)
    · simp only [dictInsert, if_neg hk] at hmem
      rcases List.mem_cons.mp hmem with heq | htail
      · exact Or.inr (heq ▸ List.mem_cons_self _ _)
      · rcases ih k v p w htail with h | h
        · exact Or.inl h
        · exact Or.inr (List.mem_cons_of_mem _ h)

/-- A key present after a `dict` insertion is the inserted key or was already
present. -/
lemma dictInsert_keys :
    ∀ (l : DigestTable) (k : FPath) (v : Digest × String) (p : FPath),
      p ∈ (dictInsert k v l).map Prod.fst → p = k ∨ p ∈ l.map Prod.fst := by
  intro l k v p hmem
  rw [List.mem_map] at hmem
  obtain ⟨⟨p', w⟩, hin, heq⟩ := hmem
  subst heq
  rcases dictInsert_mem l k v p' w hin with ⟨hk, -⟩ | h
  · exact Or.inl hk
  · exact Or.inr (List.mem_map_of_mem Prod.fst h)

/-- Every pair of the table built by the scan records precisely the two
digests successfully computed for its path, and both are truthy. -/
lemma buildTableAux_good (getsize : FPath → Except String Nat)
    (readFile : FPath → Except FileErr Content)
    (ssdeepHash : Content → Except String Digest)
    (xxh64Hash : Content → Except String String) (minSize : Nat) :
    ∀ (files : List FPath) (acc tbl : DigestTable),
      buildTableAux getsize readFile ssdeepHash xxh64Hash minSize files acc = some tbl →
      (∀ p v, (p, v) ∈ acc →
        calculate_hashes readFile ssdeepHash xxh64Hash p = (some v.1, some v.2) ∧
          v.1 ≠ "" ∧ v.2 ≠ "") →
      ∀ p v, (p, v) ∈ tbl →
        calculate_hashes readFile ssdeepHash xxh64Hash p = (some v.1, some v.2) ∧
          v.1 ≠ "" ∧ v.2 ≠ "" := by
  intro files
  induction files with
  | nil =>
    intro acc tbl htbl hacc
    simp only [buildTableAux, Option.some.injEq] at htbl
    exact htbl ▸ hacc
  | cons filepath rest ih =>
    intro acc tbl htbl hacc
    rw [buildTableAux] at htbl
    rcases hgs : getsize filepath with e | sz
    · simp only [hgs] at htbl
      exact Option.noConfusion htbl
    · simp only [hgs] at htbl
      by_cases hsz : sz < minSize
      · rw [if_pos hsz] at htbl
        exact ih acc tbl htbl hacc
      · rw [if_neg hsz] at htbl
        rcases hch : calculate_hashes readFile ssdeepHash xxh64Hash filepath with ⟨sh, xh⟩
        rcases sh with _ | h1
        · rcases xh with _ | h2
          · simp only [hch] at htbl
            exact ih _ tbl htbl hacc
          · simp only [hch] at htbl
            exact ih _ tbl htbl hacc
        · rcases xh with _ | h2
          · simp only [hch] at htbl
            exact ih _ tbl htbl hacc
          · simp only [hch] at htbl
            by_cases htr : h1 ≠ "" ∧ h2 ≠ ""
            · rw [if_pos htr] at htbl
              refine ih _ tbl htbl ?_
              intro p v hmem
              rcases dictInsert_mem acc filepath (h1, h2) p v hmem with ⟨rfl, rfl⟩ | h
              · exact ⟨hch, htr⟩
              · exact hacc p v h
            · rw [if_neg htr] at htbl
              exact ih _ tbl htbl hacc

/-- A path whose size check succeeds below the minimum never enters the
table. -/
lemma buildTableAux_small (getsize : FPath → Except String Nat)
    (readFile : FPath → Except FileErr Content)
    (ssdeepHash : Content → Except String Digest)
    (xxh64Hash : Content → Except String String) (minSize : Nat)
    (f : FPath) (sz : Nat) (hgs : getsize f = Except.ok sz) (hlt : sz < minSize) :
    ∀ (files : List FPath) (acc tbl : DigestTable),
      buildTableAux getsize readFile ssdeepHash xxh64Hash minSize files acc = some tbl →
      f ∉ acc.map Prod.fst → f ∉ tbl.map Prod.fst := by
  intro files
  induction files with
  | nil =>
    intro acc tbl htbl hacc
    simp only [buildTableAux, Option.some.injEq] at htbl
    exact htbl ▸ hacc
  | cons filepath rest ih =>
    intro acc tbl htbl hacc
    rw [buildTableAux] at htbl
    rcases hgs2 : getsize filepath with e | sz2
    · simp only [hgs2] at htbl
      exact Option.noConfusion htbl
    · simp only [hgs2] at htbl
      by_cases hsz : sz2 < minSize
      · rw [if_pos hsz] at htbl
        exact ih acc tbl htbl hacc
      · rw [if_neg hsz] at htbl
        have hne : filepath ≠ f := by
          intro heq
          rw [heq, hgs] at hgs2
          cases hgs2
          exact hsz hlt
        rcases hch : calculate_hashes readFile ssdeepHash xxh64Hash filepath with ⟨sh, xh⟩
        rcases sh with _ | h1
        · rcases xh with _ | h2
          · simp only [hch] at htbl
            exact ih _ tbl htbl hacc
          · simp only [hch] at htbl
            exact ih _ tbl htbl hacc
        · rcases xh with _ | h2
          · simp only [hch] at htbl
            exact ih _ tbl htbl hacc
          · simp only [hch] at htbl
            by_cases htr : h1 ≠ "" ∧ h2 ≠ ""
            · rw [if_pos htr] at htbl
              refine ih _ tbl htbl ?_
              intro hmem
              rcases dictInsert_keys acc filepath (h1, h2) f hmem with h | h
              · exact hne h.symm
              · exact hacc h
            · rw [if_neg htr] at htbl
              exact ih _ tbl htbl hacc

/-- A file whose size check succeeds but whose read or hashing fails
contributes nothing to the table build: the scan of the remaining files is
unchanged. -/
lemma buildTableAux_skip (getsize : FPath → Except String Nat)
    (readFile : FPath → Except FileErr Content)
    (ssdeepHash : Content → Except String Digest)
    (xxh64Hash : Content → Except String String) (minSize : Nat)
    (f : FPath) (sz : Nat) (hgs : getsize f = Except.ok sz)
    (hch : calculate_hashes readFile ssdeepHash xxh64Hash f = (none, none)) :
    ∀ (xs ys : List FPath) (acc : DigestTable),
      buildTableAux getsize readFile ssdeepHash xxh64Hash minSize (xs ++ f :: ys) acc =
        buildTableAux getsize readFile ssdeepHash xxh64Hash minSize (xs ++ ys) acc := by
  intro xs
  induction xs with
  | nil =>
    intro ys acc
    simp only [List.nil_append]
    rw [buildTableAux]
    simp only [hgs]
    by_cases hsz : sz < minSize
    · rw [if_pos hsz]
    · rw [if_neg hsz]
      simp only [hch]
  | cons x xs' ih =>
    intro ys acc
    simp only [List.cons_append]
    rw [buildTableAux, buildTableAux]
    rcases hgs2 : getsize x with e | sz2
    · simp only [hgs2]
    · simp only [hgs2]
      by_cases hsz : sz2 < minSize
      · rw [if_pos hsz, if_pos hsz]
        exact ih ys acc
      · rw [if_neg hsz, if_neg hsz]
        rcases hch2 : calculate_hashes readFile ssdeepHash xxh64Hash x with ⟨sh, xh⟩
        rcases sh with _ | h1
        · rcases xh with _ | h2
          · simp only [hch2]
            exact ih ys acc
          · simp only [hch2]
            exact ih ys acc
        · rcases xh with _ | h2
          · simp only [hch2]
            exact ih ys acc
          · simp only [hch2]
            by_cases htr : h1 ≠ "" ∧ h2 ≠ ""
            · rw [if_pos htr, if_pos htr]
              exact ih ys _
            · rw [if_neg htr, if_neg htr]
              exact ih ys acc

/-- A file whose size check raises aborts the whole table build. -/
lemma buildTableAux_abort (getsize : FPath → Except String Nat)
    (readFile : FPath → Except FileErr Content)
    (ssdeepHash : Content → Except String Digest)
    (xxh64Hash : Content → Except String String) (minSize : Nat)
    (f : FPath) (e : String) (hgs : getsize f = Except.error e) :
    ∀ (xs ys : List FPath) (acc : DigestTable),
      buildTableAux getsize readFile ssdeepHash xxh64Hash minSize (xs ++ f :: ys) acc = none := by
  intro xs
  induction xs with
  | nil =>
    intro ys acc
    simp only [List.nil_append]
    rw [buildTableAux]
    simp only [hgs]
  | cons x xs' ih =>
    intro ys acc
    simp only [List.cons_append]
    rw [buildTableAux]
    rcases hgs2 : getsize x with e2 | sz2
    · simp only [hgs2]
    · simp only [hgs2]
      by_cases hsz : sz2 < minSize
      · rw [if_pos hsz]
        exact ih ys acc
      · rw [if_neg hsz]
        rcases hch2 : calculate_hashes readFile ssdeepHash xxh64Hash x with ⟨sh, xh⟩
        rcases sh with _ | h1
        · rcases xh with _ | h2
          · simp only [hch2]
            exact ih ys acc
          · simp only [hch2]
            exact ih ys acc
        · rcases xh with _ | h2
          · simp only [hch2]
            exact ih ys acc
          · simp only [hch2]
            by_cases htr : h1 ≠ "" ∧ h2 ≠ ""
            · rw [if_pos htr]
              exact ih ys _
            · rw [if_neg htr]
              exact ih ys acc

/-- The inner loop only looks at the comparison through the decision whether
a score meeting the threshold was produced: two comparison functions that
agree on all decisions yield identical inner-loop results. -/
lemma innerLoop_congr (cmp cmp' : Digest → Digest → Option Nat) (threshold : Nat)
    (filepath1 : FPath) (hash1 : Digest)
    (hdec : ∀ a b, simDecision cmp threshold a b = simDecision cmp' threshold a b) :
    ∀ (es : DigestTable) (clusters : List FPath),
      innerLoop cmp threshold filepath1 hash1 es clusters =
        innerLoop cmp' threshold filepath1 hash1 es clusters := by
  intro es
  induction es with
  | nil => intro clusters; simp [innerLoop]
  | cons e rest ih =>
    intro clusters
    obtain ⟨p2, h2, x2⟩ := e
    have hd := hdec hash1 h2
    by_cases hc : filepath1 ≠ p2 ∧ p2 ∉ clusters
    · rcases hcmp : cmp hash1 h2 with _ | s
      · rcases hcmp' : cmp' hash1 h2 with _ | s'
        · simp only [innerLoop, if_pos hc, hcmp, hcmp']
          exact ih clusters
        · simp only [simDecision, hcmp, hcmp'] at hd
          have hle' : ¬ threshold ≤ s' := of_decide_eq_false hd.symm
          simp only [innerLoop, if_pos hc, hcmp, hcmp', if_neg hle']
          exact ih clusters
      · rcases hcmp' : cmp' hash1 h2 with _ | s'
        · simp only [simDecision, hcmp, hcmp'] at hd
          have hle : ¬ threshold ≤ s := of_decide_eq_false hd
          simp only [innerLoop, if_pos hc, hcmp, hcmp', if_neg hle]
          exact ih clusters
        · simp only [simDecision, hcmp, hcmp'] at hd
          have hiff := decide_eq_decide.mp hd
          by_cases hle : threshold ≤ s
          · have hle' := hiff.mp hle
            simp only [innerLoop, if_pos hc, hcmp, hcmp', if_pos hle, if_pos hle']
            rw [ih (clusters ++ [p2])]
          · have hle' := fun h => hle (hiff.mpr h)
            simp only [innerLoop, if_pos hc, hcmp, hcmp', if_neg hle, if_neg hle']
            exact ih clusters
    · simp only [innerLoop, if_neg hc]
      exact ih clusters

/-- Whole-pass version of the decision congruence: comparison functions that
agree on all threshold decisions produce the same emitted sequence. -/
lemma clusterLoop_congr (cmp cmp' : Digest → Digest → Option Nat) (threshold : Nat)
    (table : DigestTable)
    (hdec : ∀ a b, simDecision cmp threshold a b = simDecision cmp' threshold a b) :
    ∀ (rest : DigestTable) (clusters : List FPath),
      clusterLoop cmp threshold table rest clusters =
        clusterLoop cmp' threshold table rest clusters := by
  intro rest
  induction rest with
  | nil => intro clusters; simp [clusterLoop]
  | cons e rest' ih =>
    intro clusters
    obtain ⟨p1, h1, x1⟩ := e
    by_cases hin : p1 ∈ clusters
    · simp only [clusterLoop, if_pos hin]
      exact ih clusters
    · simp only [clusterLoop, if_neg hin]
      rw [innerLoop_congr cmp cmp' threshold p1 h1 hdec table clusters, ih]

/-- C1: under a deterministic and symmetric digest comparison, every path
appears in at most one cluster emitted by the clustering pass of
`find_similar_files`, counting appearances both as representative and as
member, for every digest table (with the `dict` invariant of
pairwise-distinct keys) and every threshold. -/
theorem cluster_paths_unique (cmp : Digest → Digest → Option Nat)
    (threshold : Nat) (table : DigestTable) (p : FPath)
    (hsym : ∀ a b, cmp a b = cmp b a)
    (hnd : (table.map Prod.fst).Nodup) :
    List.count p (((findSimilarClusters cmp threshold table).map Prod.snd).flatten) ≤ 1 := by
  have h := clusterLoop_nodup_aux cmp threshold table hsym hnd table [] []
    (List.Sublist.refl table) (by intro ph hph; exact absurd hph (List.not_mem_nil ph))
  exact List.nodup_iff_count_le_one.mp h.2 p

/-- C1 witness: the uniqueness bound evaluated on a concrete symmetric run. -/
theorem cluster_paths_unique_witness :
    List.count "a" (((findSimilarClusters cmp100 70 tblAB).map Prod.snd).flatten) ≤ 1 :=
  cluster_paths_unique cmp100 70 tblAB "a" (fun _ _ => rfl) (by decide)

/-- C2 counterexample: on the concrete table `tblAB` under full similarity
the pass emits `("a", ["a", "b"])`, and the representative `a` occurs in the
yielded second component, refuting that the members sequence of an emitted
pair never contains the representative. -/
theorem cluster_members_contain_representative :
    ∃ pr ∈ findSimilarClusters cmp100 70 tblAB, pr.1 ∈ pr.2 := by decide

/-- C2 (amended): every pair emitted by the clustering engine consists of a
representative and the yielded cluster list, whose first element is the
representative itself, followed by a non-empty tail of member paths all
distinct from the representative. -/
theorem cluster_pair_shape (cmp : Digest → Digest → Option Nat)
    (threshold : Nat) (table : DigestTable) (pr : FPath × List FPath)
    (h : pr ∈ findSimilarClusters cmp threshold table) :
    ∃ ms, pr.2 = pr.1 :: ms ∧ ms ≠ [] ∧ pr.1 ∉ ms := by
  obtain ⟨hr, xr, ms, -, hceq, hne, hnm, -, -, -⟩ :=
    clusterLoop_emitted cmp threshold table table [] pr.1 pr.2
      (by rw [Prod.mk.eta]; exact h)
  exact ⟨ms, hceq, hne, hnm⟩

/-- C2 witness: the shape property evaluated on the concrete emitted pair. -/
theorem cluster_pair_shape_witness :
    ∃ ms, (("a", ["a", "b"]) : FPath × List FPath).2 = "a" :: ms ∧ ms ≠ [] ∧ "a" ∉ ms :=
  cluster_pair_shape cmp100 70 tblAB ("a", ["a", "b"]) (by decide)

/-- C3 counterexample: `getsizeF1` raises an `OSError` only for `f1`, yet
scanning `[f1, f2, f3]` yields nothing although `f2` and `f3` read, hash and
compare at full similarity, while the same scan without `f1` yields their
cluster: one file's size-check failure aborts the scan and discards the
remaining files' results, refuting the claim for size-check failures. -/
theorem size_check_failure_aborts_scan :
    getsizeF1 "f1" = Except.error "OSError" ∧
    find_similar_files true getsizeF1 readOk sdHashOk xxHashOk cmp100
      ["f1", "f2", "f3"] 70 1024 = [] ∧
    find_similar_files true getsizeF1 readOk sdHashOk xxHashOk cmp100
      ["f2", "f3"] 70 1024 = [("f2", ["f2", "f3"])] := by
  refine ⟨by rfl, by decide, by decide⟩

/-- C3 (amended): a file whose size check succeeds but whose read or hashing
fails (so `calculate_hashes` returns `(None, None)`) is skipped: the scan
result equals that of the same scan without it.  A size-check failure
(`os.path.getsize` raising `OSError`), by contrast, aborts the table build
and the whole scan yields nothing, discarding the remaining files. -/
theorem hash_failure_skips_file (isdir : Bool)
    (getsize : FPath → Except String Nat)
    (readFile : FPath → Except FileErr Content)
    (ssdeepHash : Content → Except String Digest)
    (xxh64Hash : Content → Except String String)
    (cmp : Digest → Digest → Option Nat)
    (xs ys us vs : List FPath) (f g : FPath)
    (threshold minSize sz : Nat) (e : String) :
    (getsize f = Except.ok sz →
      calculate_hashes readFile ssdeepHash xxh64Hash f = (none, none) →
      find_similar_files isdir getsize readFile ssdeepHash xxh64Hash cmp
          (xs ++ f :: ys) threshold minSize =
        find_similar_files isdir getsize readFile ssdeepHash xxh64Hash cmp
          (xs ++ ys) threshold minSize) ∧
    (getsize g = Except.error e →
      buildTable getsize readFile ssdeepHash xxh64Hash (us ++ g :: vs) minSize = none ∧
      find_similar_files isdir getsize readFile ssdeepHash xxh64Hash cmp
        (us ++ g :: vs) threshold minSize = []) := by
  constructor
  · intro hgs hch
    have hskip := buildTableAux_skip getsize readFile ssdeepHash xxh64Hash minSize
      f sz hgs hch xs ys []
    by_cases hd : isdir = false
    · simp only [find_similar_files, if_pos hd]
    · simp only [find_similar_files, if_neg hd, buildTable]
      rw [hskip]
  · intro hge
    have habort := buildTableAux_abort getsize readFile ssdeepHash xxh64Hash minSize
      g e hge us vs []
    refine ⟨by rw [buildTable]; exact habort, ?_⟩
    by_cases hd : isdir = false
    · simp only [find_similar_files, if_pos hd]
    · simp only [find_similar_files, if_neg hd, buildTable, habort]

/-- C3 witness: the skip equation on a concrete failing read, and the abort
conjunct on a concrete failing size check. -/
theorem hash_failure_skips_file_witness :
    (find_similar_files true getsizeOk readFailG sdHashOk xxHashOk cmp100
        (["f2"] ++ "g" :: ["f3"]) 70 1024 =
      find_similar_files true getsizeOk readFailG sdHashOk xxHashOk cmp100
        (["f2"] ++ ["f3"]) 70 1024) ∧
    (buildTable getsizeF1 readOk sdHashOk xxHashOk ([] ++ "f1" :: ["f2"]) 1024 = none ∧
      find_similar_files true getsizeF1 readOk sdHashOk xxHashOk cmp100
        ([] ++ "f1" :: ["f2"]) 70 1024 = []) :=
  ⟨(hash_failure_skips_file true getsizeOk readFailG sdHashOk xxHashOk cmp100
      ["f2"] ["f3"] [] [] "g" "g" 70 1024 2000 "OSError").1 (by rfl) (by rfl),
   (hash_failure_skips_file true getsizeF1 readOk sdHashOk xxHashOk cmp100
      [] [] [] ["f2"] "f1" "f1" 70 1024 2000 "OSError").2 (by rfl)⟩

/-- C4 counterexample: with the symmetric comparison `cmpBAC` on the table
`tblBAC` (insertion order B, A, C; similarities B-A 50, B-C 10, A-C 90),
paths `A` and `C` share a cluster at threshold 80, but at the lower threshold
40 the earlier representative `B` claims `A` first, so `A` and `C` end up in
no common cluster: greedy clustering is not threshold-monotone. -/
theorem threshold_monotonicity_fails :
    (40 : Nat) ≤ 80 ∧
    sameCluster (findSimilarClusters cmpBAC 80 tblBAC) "A" "C" ∧
    ¬ sameCluster (findSimilarClusters cmpBAC 40 tblBAC) "A" "C" := by
  refine ⟨by decide, by decide, by decide⟩

/-- C4 (amended): similarity inclusion is monotone in the threshold: for
thresholds `t1 ≤ t2`, every member of a cluster emitted at `t2` compares
against its representative's digest with a score that also meets `t1`;
co-membership of a pair is itself not preserved when lowering the threshold
(see the counterexample). -/
theorem member_similarity_monotone (cmp : Digest → Digest → Option Nat)
    (t1 t2 : Nat) (table : DigestTable) (rep m : FPath) (c : List FPath)
    (h12 : t1 ≤ t2) (hc : (rep, c) ∈ findSimilarClusters cmp t2 table)
    (hm : m ∈ c) (hne : m ≠ rep) :
    ∃ hr xr hm' xm', (rep, hr, xr) ∈ table ∧ (m, hm', xm') ∈ table ∧
      ∃ s, cmp hr hm' = some s ∧ t1 ≤ s := by
  obtain ⟨hr, xr, ms, hintab, hceq, -, -, -, -, hmsim⟩ :=
    clusterLoop_emitted cmp t2 table table [] rep c hc
  rw [hceq] at hm
  rcases List.mem_cons.mp hm with rfl | hmms
  · exact absurd rfl hne
  · obtain ⟨hmd, xmd, hmtab, s, hcmps, hle⟩ := hmsim m hmms
    exact ⟨hr, xr, hmd, xmd, hintab, hmtab, s, hcmps, le_trans h12 hle⟩

/-- C4 witness: the amended monotonicity evaluated on the concrete cluster
emitted at threshold 80 for the lower threshold 40. -/
theorem member_similarity_monotone_witness :
    ∃ hr xr hm' xm', (("A" : FPath), hr, xr) ∈ tblBAC ∧ (("C" : FPath), hm', xm') ∈ tblBAC ∧
      ∃ s, cmpBAC hr hm' = some s ∧ 40 ≤ s :=
  member_similarity_monotone cmpBAC 40 80 tblBAC "A" "C" ["A", "C"]
    (by decide) (by decide) (by decide) (by decide)

/-- C5: a candidate cluster that gained no member is discarded without
registering its representative — the pass continues with an unchanged
registry — and the unregistered representative is still pulled in as a member
by any later representative whose comparison against it meets the
threshold. -/
theorem discarded_representative_stays_eligible
    (cmp : Digest → Digest → Option Nat) (threshold : Nat)
    (table rest : DigestTable) (clusters clusters2 : List FPath)
    (p1 : FPath) (h1 : Digest) (x1 : String) (q : FPath) (hq : Digest) (s : Nat)
    (hp1 : p1 ∉ clusters)
    (hms : (innerLoop cmp threshold p1 h1 table clusters).1 = []) :
    clusterLoop cmp threshold table ((p1, h1, x1) :: rest) clusters =
      clusterLoop cmp threshold table rest clusters ∧
    ((table.map Prod.fst).Nodup → (p1, h1, x1) ∈ table → p1 ∉ clusters2 → q ≠ p1 →
      cmp hq h1 = some s → threshold ≤ s →
      p1 ∈ (innerLoop cmp threshold q hq table clusters2).1) := by
  constructor
  · simp only [clusterLoop, if_neg hp1, if_pos hms]
    rw [innerLoop_snd cmp threshold p1 h1 table clusters, hms, List.append_nil]
  · intro hnd htab hncl hne hcmps hle
    exact innerLoop_adds cmp threshold q hq p1 h1 x1 s table clusters2
      hnd htab hncl hne hcmps hle

/-- C5 witness: with the asymmetric `cmpXY`, `x` finds no member (score 10
toward `y`) and is discarded unregistered, and the later representative `y`
(scoring 80 toward `x`) pulls `x` in. -/
theorem discarded_representative_stays_eligible_witness :
    (clusterLoop cmpXY 70 tblXY [(("x" : FPath), "hx", "sx"), ("y", "hy", "sy")] [] =
      clusterLoop cmpXY 70 tblXY [("y", "hy", "sy")] []) ∧
    "x" ∈ (innerLoop cmpXY 70 "y" "hy" tblXY []).1 := by
  have h := discarded_representative_stays_eligible cmpXY 70 tblXY
    [("y", "hy", "sy")] [] [] "x" "hx" "sx" "y" "hy" 80 (by decide) (by decide)
  exact ⟨h.1, h.2 (by decide) (by decide) (by decide) (by decide) (by decide) (by decide)⟩

/-- C6: a failed digest comparison is treated exactly as a below-threshold
score: patching the one failing ordered pair to any score below the
threshold leaves the whole emitted sequence unchanged, so the pass continues
and every other pair's results are unaffected. -/
theorem comparison_failure_below_threshold (cmp cmp' : Digest → Digest → Option Nat)
    (threshold : Nat) (table : DigestTable) (a b : Digest) (s : Nat)
    (hfail : cmp a b = none) (hs : s < threshold)
    (hcmp' : ∀ x y, cmp' x y = if x = a ∧ y = b then some s else cmp x y) :
    findSimilarClusters cmp' threshold table = findSimilarClusters cmp threshold table := by
  have hdec : ∀ x y, simDecision cmp' threshold x y = simDecision cmp threshold x y := by
    intro x y
    by_cases hxy : x = a ∧ y = b
    · have h1 : cmp' x y = some s := by rw [hcmp' x y, if_pos hxy]
      have h2 : cmp x y = none := by rw [hxy.1, hxy.2]; exact hfail
      simp only [simDecision, h1, h2]
      exact decide_eq_false (Nat.not_le_of_lt hs)
    · simp only [simDecision, hcmp' x y, if_neg hxy]
  exact clusterLoop_congr cmp' cmp threshold table hdec table []

/-- C6 witness: the run with the failing pair equals the run with the pair
patched to score 0, on a concrete table. -/
theorem comparison_failure_below_threshold_witness :
    findSimilarClusters cmpZeroUV 70 tblUV = findSimilarClusters cmpFailUV 70 tblUV :=
  comparison_failure_below_threshold cmpFailUV cmpZeroUV 70 tblUV "u" "v" 0
    (by decide) (by decide) (fun _ _ => rfl)

/-- C7: the clustering pass is deterministic: in the embedding it is a pure
function of the digest table and the threshold, so two runs on the same
inputs produce identical sequences, members and order included. -/
theorem clustering_deterministic (cmp : Digest → Digest → Option Nat)
    (t1 t2 : Nat) (tb1 tb2 : DigestTable) (ht : t1 = t2) (htb : tb1 = tb2) :
    findSimilarClusters cmp t1 tb1 = findSimilarClusters cmp t2 tb2 := by
  rw [ht, htb]

/-- C7 witness: two runs on the concrete table coincide. -/
theorem clustering_deterministic_witness :
    findSimilarClusters cmp100 70 tblAB = findSimilarClusters cmp100 70 tblAB :=
  clustering_deterministic cmp100 70 70 tblAB tblAB rfl rfl

/-- C8: every pair of the digest table built by `find_similar_files` records
exactly the two digests `calculate_hashes` successfully produced for its
path, both truthy — a file whose hashing failed yields `(None, None)` and is
never inserted. -/
theorem table_keys_have_digests (getsize : FPath → Except String Nat)
    (readFile : FPath → Except FileErr Content)
    (ssdeepHash : Content → Except String Digest)
    (xxh64Hash : Content → Except String String)
    (files : List FPath) (minSize : Nat) (tbl : DigestTable)
    (htbl : buildTable getsize readFile ssdeepHash xxh64Hash files minSize = some tbl)
    (p : FPath) (v : Digest × String) (hmem : (p, v) ∈ tbl) :
    calculate_hashes readFile ssdeepHash xxh64Hash p = (some v.1, some v.2) ∧
      v.1 ≠ "" ∧ v.2 ≠ "" := by
  refine buildTableAux_good getsize readFile ssdeepHash xxh64Hash minSize files [] tbl
    htbl ?_ p v hmem
  intro p' v' h
  exact absurd h (List.not_mem_nil _)

/-- C8 witness: on a scan where `g` fails to read, the surviving key `p`
carries its successfully computed digests. -/
theorem table_keys_have_digests_witness :
    calculate_hashes readFailG sdHashOk xxHashOk "p" = (some "H", some "X") ∧
      ("H" : String) ≠ "" ∧ ("X" : String) ≠ "" :=
  table_keys_have_digests getsizeOk readFailG sdHashOk xxHashOk ["p", "g"] 1024
    [("p", "H", "X")] (by decide) "p" ("H", "X") (by decide)

/-- C9: a file whose size check reports fewer than `minSize` bytes never
enters the digest table and never occurs in any emitted cluster, neither as
representative nor as member. -/
theorem small_files_never_clustered (isdir : Bool)
    (getsize : FPath → Except String Nat)
    (readFile : FPath → Except FileErr Content)
    (ssdeepHash : Content → Except String Digest)
    (xxh64Hash : Content → Except String String)
    (cmp : Digest → Digest → Option Nat)
    (files : List FPath) (threshold minSize : Nat) (f : FPath) (sz : Nat)
    (hgs : getsize f = Except.ok sz) (hlt : sz < minSize) :
    (∀ tbl, buildTable getsize readFile ssdeepHash xxh64Hash files minSize = some tbl →
      f ∉ tbl.map Prod.fst) ∧
    (∀ pr ∈ find_similar_files isdir getsize readFile ssdeepHash xxh64Hash cmp
        files threshold minSize, f ≠ pr.1 ∧ f ∉ pr.2) := by
  have htblpart : ∀ tbl,
      buildTable getsize readFile ssdeepHash xxh64Hash files minSize = some tbl →
      f ∉ tbl.map Prod.fst := by
    intro tbl htbl
    exact buildTableAux_small getsize readFile ssdeepHash xxh64Hash minSize f sz hgs hlt
      files [] tbl htbl (by simp)
  refine ⟨htblpart, ?_⟩
  intro pr hpr
  by_cases hd : isdir = false
  · simp only [find_similar_files, if_pos hd] at hpr
    exact absurd hpr (List.not_mem_nil pr)
  · simp only [find_similar_files, if_neg hd] at hpr
    rcases htb : buildTable getsize readFile ssdeepHash xxh64Hash files minSize with _ | tbl
    · simp only [htb] at hpr
      exact absurd hpr (List.not_mem_nil pr)
    · simp only [htb] at hpr
      have hf : f ∉ tbl.map Prod.fst := htblpart tbl htb
      obtain ⟨hr, xr, ms, hintab, hceq, -, -, -, hsub, -⟩ :=
        clusterLoop_emitted cmp threshold tbl tbl [] pr.1 pr.2
          (by rw [Prod.mk.eta]; exact hpr)
      constructor
      · intro heq
        exact hf (heq ▸ List.mem_map_of_mem Prod.fst hintab)
      · intro hmem
        rw [hceq] at hmem
        rcases List.mem_cons.mp hmem with heq | hms
        · exact hf (heq ▸ List.mem_map_of_mem Prod.fst hintab)
        · exact hf (hsub.subset hms)

/-- C9 witness: `tiny` (10 bytes, below the 1024 minimum) is absent from the
table and from every emitted cluster of a concrete scan. -/
theorem small_files_never_clustered_witness :
    (∀ tbl, buildTable getsizeSmall readOk sdHashOk xxHashOk
        ["tiny", "f2", "f3"] 1024 = some tbl → "tiny" ∉ tbl.map Prod.fst) ∧
    (∀ pr ∈ find_similar_files true getsizeSmall readOk sdHashOk xxHashOk cmp100
        ["tiny", "f2", "f3"] 70 1024, "tiny" ≠ pr.1 ∧ "tiny" ∉ pr.2) :=
  small_files_never_clustered true getsizeSmall readOk sdHashOk xxHashOk cmp100
    ["tiny", "f2", "f3"] 70 1024 "tiny" 10 (by rfl) (by decide)

/-- C10: in every yielded pair, the first element of the yielded list is the
representative itself, the remaining elements occur in digest-table insertion
order, and the representatives of successive yielded pairs occur in
digest-table insertion order as well. -/
theorem cluster_order_insertion (cmp : Digest → Digest → Option Nat)
    (threshold : Nat) (table : DigestTable) (rep : FPath) (c : List FPath)
    (h : (rep, c) ∈ findSimilarClusters cmp threshold table) :
    (∃ ms, c = rep :: ms ∧ ms.Sublist (table.map Prod.fst)) ∧
    ((findSimilarClusters cmp threshold table).map Prod.fst).Sublist
      (table.map Prod.fst) := by
  constructor
  · obtain ⟨hr, xr, ms, -, hceq, -, -, -, hsub, -⟩ :=
      clusterLoop_emitted cmp threshold table table [] rep c h
    exact ⟨ms, hceq, hsub⟩
  · exact clusterLoop_reps_sublist cmp threshold table table []

/-- C10 witness: the ordering properties evaluated on the concrete run. -/
theorem cluster_order_insertion_witness :
    (∃ ms, (["a", "b"] : List FPath) = "a" :: ms ∧ ms.Sublist (tblAB.map Prod.fst)) ∧
    ((findSimilarClusters cmp100 70 tblAB).map Prod.fst).Sublist (tblAB.map Prod.fst) :=
  cluster_order_insertion cmp100 70 tblAB "a" ["a", "b"] (by decide)
